import Mathlib

/-!
# Verification of the `sanitize_test_framework` sanitizer

Shallow embedding of `src/sanitize_test_framework.py`, a script that reads
`test/test-framework.mjs`, applies a fixed ordered mapping of literal
substring replacements (Python `str.replace`, all non-overlapping
occurrences, entries in dict insertion order), and writes the result back.

Python strings are modelled as `List Char` (sequences of Unicode scalar
values).  `pyReplace` is the embedding of Python's `str.replace` (replace
every non-overlapping occurrence, scanning left to right, never rescanning
replacement text).  `replacements` is the script's dict, in declaration
order.  `sanitize` is the script's `for` loop.

Note on the four mapping keys written with `\\"` in the Python source
(lines 5, 8, 10 and 23): as committed, `\\` denotes a backslash and the
following bare `"` ends the string literal, so the file does not parse.
The evident intent — confirmed by the claim-level fragment text and by the
mojibake the keys encode (e.g. `dY"S` is the ASCII folding of the CP1252
mojibake of U+1F4CA, whose third byte decodes to a plain double quote) —
is the escape `\"`, i.e. a plain `"` character in the data.  The embedding
uses that reading; everything else is transcribed byte-for-byte.
-/

/-- Python strings are sequences of Unicode scalar values. -/
abbrev Str := List Char

/-- One mapping entry: an (`old`, `new`) pair of literal fragments. -/
abbrev Entry := Str × Str

/-- Scanning core of Python `str.replace` for a non-empty pattern `p`:
walk the text left to right; at each position, if `p` matches here,
emit `n` and continue after the matched block (the replacement text is
never rescanned); otherwise copy one character. -/
def replaceGo (p n : Str) : Str → Str
  | [] => []
  | c :: s =>
    if h : p.isPrefixOf (c :: s) ∧ p ≠ [] then
      n ++ replaceGo p n ((c :: s).drop p.length)
    else
      c :: replaceGo p n s
termination_by s => s.length
decreasing_by
  · have hp : 1 ≤ p.length := by
      cases p with
      | nil => exact absurd rfl h.2
      | cons a l => simp
    simp only [List.length_drop, List.length_cons]
    omega
  · simp

/-- Embedding of Python `str.replace s old new` (all occurrences).
For an empty pattern Python inserts `new` at every position, including
both ends; for a non-empty pattern it scans with `replaceGo`. -/
def pyReplace (s old new : Str) : Str :=
  if old = [] then new ++ s.flatMap (fun c => c :: new) else replaceGo old new s

/-- The replacement mapping of `src/sanitize_test_framework.py`
(lines 4-30), in dict declaration = iteration order.  See the module
docstring for the reading of the four `\\"` keys. -/
def replacements : List Entry :=
  [ (("this.log('dY\", Initializing test framework with universal browser service...');").data,
     ("this.log('[INFO] Initializing test framework with universal browser service...');").data),
    (("this.log('\uFFFDo. Test framework initialized successfully');").data,
     ("this.log('[OK] Test framework initialized successfully');").data),
    (("console.error('\\ufffdo Failed to initialize test framework:', error);").data,
     ("console.error('[ERROR] Failed to initialize test framework:', error);").data),
    (("this.log('dY\", Cleaning up test framework...');").data,
     ("this.log('[INFO] Cleaning up test framework...');").data),
    (("this.log('\uFFFDo. Test framework cleanup completed');").data,
     ("this.log('[OK] Test framework cleanup completed');").data),
    (("this.log('dY\"? Checking authentication requirement...');").data,
     ("this.log('[INFO] Checking authentication requirement...');").data),
    (("console.error('\\ufffdo', error);").data,
     ("console.error('[ERROR]', error);").data),
    (("console.log('\\ufffdo. Authentication verified - tests can proceed');").data,
     ("console.log('[OK] Authentication verified - tests can proceed');").data),
    (("console.error('\\ufffdo Authentication error:', error.message);").data,
     ("console.error('[ERROR] Authentication error:', error.message);").data),
    (("console.log(`dY\\u0015\u000E Running $\x7bthis.tests.length\x7d tests with universal browser service...`);").data,
     ("console.log(`[INFO] Running $\x7bthis.tests.length\x7d tests with universal browser service...`);").data),
    (("console.log(`\\ufffd-\\ufffd,?  SKIPPED: $\x7btest.name\x7d`);").data,
     ("console.log(`[SKIP] $\x7btest.name\x7d`);").data),
    (("console.log(`dY\\u0015\u000E Running: $\x7btest.name\x7d`);").data,
     ("console.log(`[INFO] Running: $\x7btest.name\x7d`);").data),
    (("console.log(`\\ufffdo. PASS: $\x7btest.name\x7d - $\x7bduration\x7dms`);").data,
     ("console.log(`[PASS] $\x7btest.name\x7d - $\x7bduration\x7dms`);").data),
    (("console.log(`\\ufffdo. PASS: $\x7btest.name\x7d (expected to fail) - $\x7bduration\x7dms`);").data,
     ("console.log(`[PASS] $\x7btest.name\x7d (expected to fail) - $\x7bduration\x7dms`);").data),
    (("console.log(`\\ufffdo FAIL: $\x7btest.name\x7d (expected to fail but passed) - $\x7bduration\x7dms`);").data,
     ("console.log(`[FAIL] $\x7btest.name\x7d (expected to fail but passed) - $\x7bduration\x7dms`);").data),
    (("console.log(`\\ufffdo FAIL: $\x7btest.name\x7d - $\x7berror.message\x7d - $\x7bduration\x7dms`);").data,
     ("console.log(`[FAIL] $\x7btest.name\x7d - $\x7berror.message\x7d - $\x7bduration\x7dms`);").data),
    (("console.log('\\ufffdo CRITICAL ERROR: Tests were defined but none executed!');").data,
     ("console.log('[ERROR] CRITICAL ERROR: Tests were defined but none executed!');").data),
    (("console.log('\\ufffdo This indicates a fundamental problem (likely authentication failure)');").data,
     ("console.log('[ERROR] This indicates a fundamental problem (likely authentication failure)');").data),
    (("console.log('\\ndY\"S Test Results:');").data,
     ("console.log('\\n[SUMMARY] Test Results:');").data),
    (("console.log(`\\ufffdo. Passed: $\x7bpassed\x7d`);").data,
     ("console.log(`[PASS] Passed: $\x7bpassed\x7d`);").data),
    (("console.log(`\\ufffdo Failed: $\x7bfailed\x7d`);").data,
     ("console.log(`[FAIL] Failed: $\x7bfailed\x7d`);").data),
    (("console.log(`\\ufffd-\\ufffd,?  Skipped: $\x7bskipped\x7d`);").data,
     ("console.log(`[SKIP] Skipped: $\x7bskipped\x7d`);").data),
    (("console.log(`dY?\\u001d Executed: $\x7bexecuted\x7d/$\x7bthis.tests.length\x7d`);").data,
     ("console.log(`[INFO] Executed: $\x7bexecuted\x7d/$\x7bthis.tests.length\x7d`);").data),
    (("console.log(`\\ufffd?\\u0014,?  Duration: $\x7btotalDuration\x7dms`);").data,
     ("console.log(`[TIME] Duration: $\x7btotalDuration\x7dms`);").data),
    (("console.log(`dYZ_ Success: $\x7bsuccess ? 'YES' : 'NO'\x7d`);").data,
     ("console.log(`[RESULT] Success: $\x7bsuccess ? 'YES' : 'NO'\x7d`);").data) ]

/-- The script's `for old, new in replacements.items(): text = text.replace(old, new)`
loop, generalized over the mapping value it iterates. -/
def sanitizeWith (m : List Entry) (text : Str) : Str :=
  m.foldl (fun t p => pyReplace t p.1 p.2) text

/-- The full sanitization pass of the script on an in-memory text. -/
def sanitize (text : Str) : Str :=
  sanitizeWith replacements text

/-- Decidable occurrence check: `p` occurs as a contiguous fragment of `t`. -/
def occursIn (p t : Str) : Bool :=
  (List.range (t.length + 1)).any fun i => p.isPrefixOf (t.drop i)

/-- A decomposition of an input text into literal filler and marked
occurrences of mapping fragments: `lit u` is verbatim content, `frag e`
marks one occurrence of entry `e`'s `old` fragment. -/
inductive Chunk where
  | lit (u : Str)
  | frag (e : Entry)
deriving DecidableEq

/-- Concatenate a chunk decomposition, rendering each marked fragment
through `ch` (e.g. `fun e => e.1` for the pre-replacement text and
`fun e => e.2` for the post-replacement text). -/
def render (ch : Entry → Str) : List Chunk → Str
  | [] => []
  | Chunk.lit u :: cs => u ++ render ch cs
  | Chunk.frag e :: cs => ch e ++ render ch cs

/-- Point update of a fragment renderer: entry `p` now renders as its
replacement `p.2`. -/
def update (ch : Entry → Str) (p : Entry) : Entry → Str :=
  fun e => if e = p then p.2 else ch e

/-- `p` matches at no position strictly inside the leading block `u` of
`u ++ t` (including positions whose match would spill over into `t`). -/
def noMatchWithinB (p u t : Str) : Bool :=
  (List.range u.length).all fun i => !(p.isPrefixOf ((u ++ t).drop i))

/-- The occurrences of entry `p`'s `old` fragment in `render ch cs` are
exactly the marked `frag p` positions: no match starts inside a literal
block, inside another fragment's rendering, or spanning into later
content. -/
def safeB (p : Entry) (ch : Entry → Str) : List Chunk → Bool
  | [] => true
  | Chunk.lit u :: cs => noMatchWithinB p.1 u (render ch cs) && safeB p ch cs
  | Chunk.frag e :: cs =>
    if e = p then safeB p ch cs
    else noMatchWithinB p.1 (ch e) (render ch cs) && safeB p ch cs

/-- Safety of a whole pass: each entry of the mapping, at its turn, has
its matches exactly at its own marked fragments of the current
(partially replaced) text, its `old` is non-empty, and its fragments
still render as `old` when its turn comes. -/
def safeChainB (ch : Entry → Str) : List Entry → List Chunk → Bool
  | [], _ => true
  | p :: L, cs =>
    decide (p.1 ≠ []) && decide (ch p = p.1) && safeB p ch cs &&
      safeChainB (update ch p) L cs

/-- Every marked fragment of the decomposition is an entry of the
script's mapping. -/
def fragsOk : List Chunk → Bool
  | [] => true
  | Chunk.lit _ :: cs => fragsOk cs
  | Chunk.frag e :: cs => decide (e ∈ replacements) && fragsOk cs

/-- Failure modes of the platform I/O used by the script. -/
inductive IOErr where
  | notFound
  | permissionDenied
  | decodeError
deriving DecidableEq

/-- Modelled from the spec: the read/transform/write shell of the script
(`path.read_text`, the replacement loop, `path.write_text`).  The
filesystem and its failure modes live outside `src/`, so the shell is a
function of the read outcome and of the target file's prior state: a
read failure propagates as the run's outcome before any write executes,
leaving the target file in its prior state; a successful read writes the
sanitized text over the target.  Returns (run outcome, final file
state). -/
def runSanitizer : Except IOErr Str → Option Str → Except IOErr Unit × Option Str
  | Except.error e, disk => (Except.error e, disk)
  | Except.ok t, _ => (Except.ok (), some (sanitize t))

/-- Modelled from the spec: UTF-8 encoding of one Unicode scalar value,
as performed by `path.write_text(text, encoding='utf-8')` (the codec is
the platform's, outside `src/`). -/
def utf8EncodeChar (c : Char) : List Nat :=
  if c.toNat < 0x80 then [c.toNat]
  else if c.toNat < 0x800 then [0xC0 + c.toNat / 64, 0x80 + c.toNat % 64]
  else if c.toNat < 0x10000 then
    [0xE0 + c.toNat / 4096, 0x80 + (c.toNat / 64) % 64, 0x80 + c.toNat % 64]
  else
    [0xF0 + c.toNat / 262144, 0x80 + (c.toNat / 4096) % 64,
     0x80 + (c.toNat / 64) % 64, 0x80 + c.toNat % 64]

/-- Modelled from the spec: UTF-8 encoding of a text. -/
def utf8Encode (s : Str) : List Nat := s.flatMap utf8EncodeChar

/-- Modelled from the spec: strict UTF-8 decoding of one code point from
the head of a byte sequence, as performed by
`path.read_text(encoding='utf-8')` — returning the code point and the
remaining bytes, or `none` for a malformed head (stray or missing
continuation bytes, overlong forms, surrogates, out-of-range values). -/
def utf8DecodeOne : List Nat → Option (Nat × List Nat)
  | [] => none
  | b0 :: bs =>
    if b0 < 0x80 then some (b0, bs)
    else if b0 < 0xC2 then none
    else if b0 < 0xE0 then
      match bs with
      | b1 :: bs' =>
        if 0x80 ≤ b1 ∧ b1 < 0xC0 then
          some ((b0 - 0xC0) * 64 + (b1 - 0x80), bs')
        else none
      | [] => none
    else if b0 < 0xF0 then
      match bs with
      | b1 :: b2 :: bs' =>
        if (0x80 ≤ b1 ∧ b1 < 0xC0) ∧ (0x80 ≤ b2 ∧ b2 < 0xC0) ∧
            (0x800 ≤ (b0 - 0xE0) * 4096 + (b1 - 0x80) * 64 + (b2 - 0x80)) ∧
            ((b0 - 0xE0) * 4096 + (b1 - 0x80) * 64 + (b2 - 0x80) < 0xD800 ∨
              0xDFFF < (b0 - 0xE0) * 4096 + (b1 - 0x80) * 64 + (b2 - 0x80)) then
          some ((b0 - 0xE0) * 4096 + (b1 - 0x80) * 64 + (b2 - 0x80), bs')
        else none
      | _ => none
    else if b0 < 0xF5 then
      match bs with
      | b1 :: b2 :: b3 :: bs' =>
        if (0x80 ≤ b1 ∧ b1 < 0xC0) ∧ (0x80 ≤ b2 ∧ b2 < 0xC0) ∧
            (0x80 ≤ b3 ∧ b3 < 0xC0) ∧
            (0x10000 ≤ (b0 - 0xF0) * 262144 + (b1 - 0x80) * 4096 +
              (b2 - 0x80) * 64 + (b3 - 0x80)) ∧
            ((b0 - 0xF0) * 262144 + (b1 - 0x80) * 4096 +
              (b2 - 0x80) * 64 + (b3 - 0x80) < 0x110000) then
          some ((b0 - 0xF0) * 262144 + (b1 - 0x80) * 4096 +
            (b2 - 0x80) * 64 + (b3 - 0x80), bs')
        else none
      | _ => none
    else none

/-- Modelled from the spec: the decoding loop, indexed by a fuel bound
on the number of code points still to be decoded (each decoded code
point consumes at least one byte, so the byte count is enough fuel). -/
def utf8DecodeFuel : Nat → List Nat → Option Str
  | _, [] => some []
  | 0, _ :: _ => none
  | fuel + 1, b0 :: bs =>
    match utf8DecodeOne (b0 :: bs) with
    | some p => (utf8DecodeFuel fuel p.2).map (fun r => Char.ofNat p.1 :: r)
    | none => none

/-- Modelled from the spec: strict UTF-8 decoding of a whole byte
sequence, as performed by `path.read_text(encoding='utf-8')`. -/
def utf8Decode (l : List Nat) : Option Str := utf8DecodeFuel l.length l

theorem occursIn_correct (p t : Str) : occursIn p t = true ↔ p <:+: t := by
  constructor
  · intro h
    rcases List.any_eq_true.mp h with ⟨i, _, hpre⟩
    exact List.infix_iff_prefix_suffix.mpr
      ⟨t.drop i, List.isPrefixOf_iff_prefix.mp hpre, List.drop_suffix i t⟩
  · intro h
    rcases List.infix_iff_prefix_suffix.mp h with ⟨u, hpre, hsuf⟩
    rcases hsuf with ⟨v, hv⟩
    refine List.any_eq_true.mpr ⟨v.length, ?_, ?_⟩
    · have : v.length + u.length = t.length := by
        rw [← hv, List.length_append]
      simp only [List.mem_range]
      omega
    · have : t.drop v.length = u := by rw [← hv, List.drop_left]
      rw [this]
      exact List.isPrefixOf_iff_prefix.mpr hpre

theorem replaceGo_nil (p n : Str) : replaceGo p n [] = [] := by
  simp [replaceGo]

theorem replaceGo_cons_pos (p n : Str) (c : Char) (s : Str)
    (h1 : p.isPrefixOf (c :: s) = true) (h2 : p ≠ []) :
    replaceGo p n (c :: s) = n ++ replaceGo p n ((c :: s).drop p.length) := by
  rw [replaceGo]
  simp [h1, h2]

theorem replaceGo_cons_neg (p n : Str) (c : Char) (s : Str)
    (h : ¬ p.isPrefixOf (c :: s) = true) :
    replaceGo p n (c :: s) = c :: replaceGo p n s := by
  rw [replaceGo]
  simp [h]

theorem replaceGo_append_of_noMatch (p n : Str) (u t : Str)
    (H : ∀ i, i < u.length → ¬ p.isPrefixOf ((u ++ t).drop i) = true) :
    replaceGo p n (u ++ t) = u ++ replaceGo p n t := by
  induction u with
  | nil => simp
  | cons c u ih =>
    have h0 : ¬ p.isPrefixOf (c :: (u ++ t)) = true := by
      have := H 0 (by simp)
      simpa using this
    rw [List.cons_append, replaceGo_cons_neg p n c (u ++ t) h0]
    have H' : ∀ i, i < u.length → ¬ p.isPrefixOf ((u ++ t).drop i) = true := by
      intro i hi
      have := H (i + 1) (by simp; omega)
      simpa [List.drop_succ_cons] using this
    rw [ih H']
    simp

theorem replaceGo_append_match (p n : Str) (t : Str) (hp : p ≠ []) :
    replaceGo p n (p ++ t) = n ++ replaceGo p n t := by
  cases p with
  | nil => exact absurd rfl hp
  | cons a q =>
    have hpre : (a :: q).isPrefixOf ((a :: q) ++ t) = true :=
      List.isPrefixOf_iff_prefix.mpr (List.prefix_append _ _)
    rw [List.cons_append] at hpre ⊢
    rw [replaceGo_cons_pos (a :: q) n a (q ++ t) hpre (by simp)]
    rw [← List.cons_append, List.drop_left]

theorem replaceGo_of_no_occurrence (p n : Str) (s : Str) (h : ¬ p <:+: s) :
    replaceGo p n s = s := by
  induction s with
  | nil => exact replaceGo_nil p n
  | cons c s ih =>
    have h0 : ¬ p.isPrefixOf (c :: s) = true := by
      intro hc
      exact h ((List.isPrefixOf_iff_prefix.mp hc).isInfix)
    rw [replaceGo_cons_neg p n c s h0, ih (fun hi => h (List.infix_cons hi))]

theorem pyReplace_of_no_occurrence (s p n : Str) (h : ¬ p <:+: s) :
    pyReplace s p n = s := by
  have hp : p ≠ [] := by
    intro he
    exact h (he ▸ List.nil_infix)
  rw [pyReplace, if_neg hp]
  exact replaceGo_of_no_occurrence p n s h

theorem noMatchWithinB_iff (p u t : Str) :
    noMatchWithinB p u t = true ↔
      ∀ i, i < u.length → ¬ p.isPrefixOf ((u ++ t).drop i) = true := by
  unfold noMatchWithinB
  rw [List.all_eq_true]
  constructor
  · intro h i hi hc
    have := h i (List.mem_range.mpr hi)
    rw [hc] at this
    simp at this
  · intro h i hi
    cases hb : p.isPrefixOf ((u ++ t).drop i) with
    | false => simp [hb]
    | true => exact absurd hb (h i (List.mem_range.mp hi))

theorem fragsOk_mem {cs : List Chunk} (h : fragsOk cs = true) :
    ∀ e : Entry, Chunk.frag e ∈ cs → e ∈ replacements := by
  induction cs with
  | nil =>
    intro e he
    exact absurd he (by simp)
  | cons c cs ih =>
    intro e he
    cases c with
    | lit u =>
      have he' : Chunk.frag e ∈ cs := by
        rcases List.mem_cons.mp he with h' | h'
        · exact absurd h' (by simp)
        · exact h'
      exact ih h e he'
    | frag e' =>
      have h' : (e' ∈ replacements) ∧ fragsOk cs = true := by
        simpa [fragsOk, Bool.and_eq_true, decide_eq_true_eq] using h
      rcases List.mem_cons.mp he with h'' | h''
      · have : e = e' := by
          simpa using h''
        exact this ▸ h'.1
      · exact ih h'.2 e h''

/-- One `str.replace` step on a safely decomposed text replaces exactly
the marked fragments of its entry. -/
theorem replaceGo_render (p : Entry) (ch : Entry → Str)
    (hp : p.1 ≠ []) (hch : ch p = p.1) :
    ∀ cs : List Chunk, safeB p ch cs = true →
      replaceGo p.1 p.2 (render ch cs) = render (update ch p) cs := by
  intro cs
  induction cs with
  | nil =>
    intro _
    simp [render, replaceGo_nil]
  | cons c cs ih =>
    intro hs
    cases c with
    | lit u =>
      have hs' : noMatchWithinB p.1 u (render ch cs) = true ∧ safeB p ch cs = true := by
        simpa [safeB, Bool.and_eq_true] using hs
      show replaceGo p.1 p.2 (u ++ render ch cs) = u ++ render (update ch p) cs
      rw [replaceGo_append_of_noMatch p.1 p.2 u (render ch cs)
            ((noMatchWithinB_iff p.1 u (render ch cs)).mp hs'.1),
          ih hs'.2]
    | frag e =>
      by_cases he : e = p
      · subst he
        have hs' : safeB e ch cs = true := by
          simpa [safeB] using hs
        show replaceGo e.1 e.2 (ch e ++ render ch cs) =
          update ch e e ++ render (update ch e) cs
        rw [hch, replaceGo_append_match e.1 e.2 (render ch cs) hp, ih hs']
        simp [update]
      · have hs' : noMatchWithinB p.1 (ch e) (render ch cs) = true ∧
            safeB p ch cs = true := by
          simpa [safeB, he, Bool.and_eq_true] using hs
        show replaceGo p.1 p.2 (ch e ++ render ch cs) =
          update ch p e ++ render (update ch p) cs
        rw [replaceGo_append_of_noMatch p.1 p.2 (ch e) (render ch cs)
              ((noMatchWithinB_iff p.1 (ch e) (render ch cs)).mp hs'.1),
            ih hs'.2]
        simp [update, he]

/-- The whole pass on a safely decomposed text replaces exactly the
marked fragments, entry by entry in mapping order. -/
theorem sanitizeWith_render (L : List Entry) :
    ∀ (ch : Entry → Str) (cs : List Chunk), safeChainB ch L cs = true →
      sanitizeWith L (render ch cs) = render (L.foldl update ch) cs := by
  induction L with
  | nil =>
    intro ch cs _
    rfl
  | cons p L ih =>
    intro ch cs h
    have h' : p.1 ≠ [] ∧ ch p = p.1 ∧ safeB p ch cs = true ∧
        safeChainB (update ch p) L cs = true := by
      simpa [safeChainB, Bool.and_eq_true, decide_eq_true_eq, and_assoc] using h
    show sanitizeWith L (pyReplace (render ch cs) p.1 p.2) =
      render ((p :: L).foldl update ch) cs
    rw [pyReplace, if_neg h'.1,
        replaceGo_render p ch h'.1 h'.2.1 cs h'.2.2.1,
        ih (update ch p) cs h'.2.2.2]
    rfl

theorem foldl_update_not_mem (L : List Entry) (ch : Entry → Str) (e : Entry)
    (he : e ∉ L) : (L.foldl update ch) e = ch e := by
  induction L generalizing ch with
  | nil => rfl
  | cons p L ih =>
    have h1 : e ∉ L := fun h => he (by simp [h])
    have h2 : e ≠ p := fun h => he (by simp [h])
    show (L.foldl update (update ch p)) e = ch e
    rw [ih (update ch p) h1]
    simp [update, h2]

theorem foldl_update_mem (L : List Entry) (ch : Entry → Str) (e : Entry)
    (he : e ∈ L) : (L.foldl update ch) e = e.2 := by
  induction L generalizing ch with
  | nil => exact absurd he (by simp)
  | cons p L ih =>
    show (L.foldl update (update ch p)) e = e.2
    by_cases h : e ∈ L
    · exact ih (update ch p) h
    · have hep : e = p := by
        rcases List.mem_cons.mp he with h' | h'
        · exact h'
        · exact absurd h' h
      rw [foldl_update_not_mem L (update ch p) e h]
      simp [update, hep]

theorem render_congr (ch ch' : Entry → Str) (cs : List Chunk)
    (H : ∀ e : Entry, Chunk.frag e ∈ cs → ch e = ch' e) :
    render ch cs = render ch' cs := by
  induction cs with
  | nil => rfl
  | cons c cs ih =>
    cases c with
    | lit u =>
      show u ++ render ch cs = u ++ render ch' cs
      rw [ih (fun e he => H e (by simp [he]))]
    | frag e =>
      show ch e ++ render ch cs = ch' e ++ render ch' cs
      rw [H e (by simp), ih (fun e' he => H e' (by simp [he]))]

/-- Main correctness of the pass: on a text decomposed into literal
content plus marked occurrences of mapping fragments, with no
interfering matches at any stage, the pass rewrites each marked `old`
fragment to its `new` counterpart and leaves all literal content
byte-identical. -/
theorem sanitize_render (cs : List Chunk) (H1 : fragsOk cs = true)
    (H2 : safeChainB (fun e => e.1) replacements cs = true) :
    sanitize (render (fun e => e.1) cs) = render (fun e => e.2) cs := by
  rw [sanitize, sanitizeWith_render replacements (fun e => e.1) cs H2]
  exact render_congr _ _ cs
    (fun e he => foldl_update_mem replacements _ e (fragsOk_mem H1 e he))

theorem sanitizeWith_noop (m : List Entry) (t : Str)
    (H : ∀ p ∈ m, ¬ p.1 <:+: t) : sanitizeWith m t = t := by
  induction m with
  | nil => rfl
  | cons p m ih =>
    have h1 : pyReplace t p.1 p.2 = t :=
      pyReplace_of_no_occurrence t p.1 p.2 (H p (by simp))
    show sanitizeWith m (pyReplace t p.1 p.2) = t
    rw [h1]
    exact ih (fun q hq => H q (by simp [hq]))

theorem sanitizeWith_append (l1 l2 : List Entry) (t : Str) :
    sanitizeWith (l1 ++ l2) t = sanitizeWith l2 (sanitizeWith l1 t) := by
  simp [sanitizeWith, List.foldl_append]

theorem sanitizeWith_cons (p : Entry) (L : List Entry) (t : Str) :
    sanitizeWith (p :: L) t = sanitizeWith L (pyReplace t p.1 p.2) := rfl

theorem rep_olds_ne_nil : ∀ p ∈ replacements, p.1 ≠ [] := by decide

/-- C1: on any input text decomposed into literal content plus marked
occurrences of mapping `old` fragments — each marked fragment an entry of
the mapping, present exactly as specified, with no entry matching
anywhere except at its own marks at any stage of the pass — the
sanitizer's output is the input with each marked garbled fragment
replaced by its readable counterpart, and all content outside the
matched regions is byte-identical before and after. -/
theorem claim_C1 (cs : List Chunk) (H1 : fragsOk cs = true)
    (H2 : safeChainB (fun e => e.1) replacements cs = true) :
    sanitize (render (fun e => e.1) cs) = render (fun e => e.2) cs :=
  sanitize_render cs H1 H2

theorem claim_C1_witness :
    sanitize (render (fun e => e.1)
      [Chunk.lit (("a\n").data),
       Chunk.frag (("this.log('dY\", Initializing test framework with universal browser service...');").data,
         ("this.log('[INFO] Initializing test framework with universal browser service...');").data),
       Chunk.lit (("\n").data),
       Chunk.frag (("this.log('�o. Test framework initialized successfully');").data,
         ("this.log('[OK] Test framework initialized successfully');").data),
       Chunk.lit (("\n").data)]) =
    render (fun e => e.2)
      [Chunk.lit (("a\n").data),
       Chunk.frag (("this.log('dY\", Initializing test framework with universal browser service...');").data,
         ("this.log('[INFO] Initializing test framework with universal browser service...');").data),
       Chunk.lit (("\n").data),
       Chunk.frag (("this.log('�o. Test framework initialized successfully');").data,
         ("this.log('[OK] Test framework initialized successfully');").data),
       Chunk.lit (("\n").data)] :=
  claim_C1 _ rfl rfl

/-- C2: the pass applies the mapping entries in the mapping's declared
iteration order, and each entry's replacement operates on the text
produced by all prior entries' replacements (sequential composition):
in particular, for a later entry `B` whose `old` fragment equals an
earlier entry `A`'s replacement text, `B`'s replacement is applied to
the text produced after `A`; and the script's pass is exactly this
ordered fold over its mapping. -/
theorem claim_C2 (pre mid post : List Entry) (A B : Entry) (t : Str)
    (hAB : A.2 = B.1) :
    sanitizeWith (pre ++ A :: (mid ++ B :: post)) t =
      sanitizeWith post
        (pyReplace (sanitizeWith mid (pyReplace (sanitizeWith pre t) A.1 A.2))
          B.1 B.2) ∧
    sanitize t = sanitizeWith replacements t := by
  refine ⟨?_, rfl⟩
  rw [sanitizeWith_append pre (A :: (mid ++ B :: post)) t,
      sanitizeWith_cons,
      sanitizeWith_append mid (B :: post) _,
      sanitizeWith_cons]

theorem claim_C2_witness :
    sanitizeWith ([] ++ (("a").data, ("b").data) :: ([] ++ (("b").data, ("c").data) :: [])) (("a").data) =
      sanitizeWith []
        (pyReplace (sanitizeWith [] (pyReplace (sanitizeWith [] (("a").data)) (("a").data) (("b").data)))
          (("b").data) (("c").data)) ∧
    sanitize (("a").data) = sanitizeWith replacements (("a").data) :=
  claim_C2 [] [] [] ((("a").data, ("b").data)) ((("b").data, ("c").data)) (("a").data) rfl

/-- C3: for every mapping entry (old, new), one replacement step on a
text containing `old` at exactly two marked locations (and matching
nowhere else, not even overlapping the marks) replaces both
occurrences — all non-overlapping occurrences — with `new`, leaving the
rest of the text unchanged. -/
theorem claim_C3 (old new : Str) (hm : (old, new) ∈ replacements) (u v w : Str)
    (H : safeB (old, new) (fun e => e.1)
      [Chunk.lit u, Chunk.frag (old, new), Chunk.lit v,
       Chunk.frag (old, new), Chunk.lit w] = true) :
    pyReplace (u ++ old ++ v ++ old ++ w) old new =
      u ++ new ++ v ++ new ++ w := by
  have hp : old ≠ [] := rep_olds_ne_nil (old, new) hm
  have h := replaceGo_render (old, new) (fun e => e.1) hp rfl _ H
  rw [pyReplace, if_neg hp]
  simp only [render, update, if_pos] at h
  simp only [List.append_assoc, List.append_nil] at h ⊢
  exact h

theorem claim_C3_witness :
    pyReplace ((("x").data) ++ (("this.log('dY\", Cleaning up test framework...');").data) ++ (("y").data) ++
        (("this.log('dY\", Cleaning up test framework...');").data) ++ (("z").data))
      (("this.log('dY\", Cleaning up test framework...');").data)
      (("this.log('[INFO] Cleaning up test framework...');").data) =
    (("x").data) ++ (("this.log('[INFO] Cleaning up test framework...');").data) ++ (("y").data) ++
      (("this.log('[INFO] Cleaning up test framework...');").data) ++ (("z").data) :=
  claim_C3 _ _ (by decide) _ _ _ rfl

/-- C4: applying the sanitization pass a second time is a no-op: for a
valid input (decomposed into literal content plus marked fragment
occurrences with no interfering matches, each fragment appearing only at
its marks) whose sanitized form contains no `old` fragment any more,
sanitize (sanitize x) = sanitize x. -/
theorem claim_C4 (cs : List Chunk) (H1 : fragsOk cs = true)
    (H2 : safeChainB (fun e => e.1) replacements cs = true)
    (H3 : replacements.all
      (fun p => !(occursIn p.1 (render (fun e => e.2) cs))) = true) :
    sanitize (sanitize (render (fun e => e.1) cs)) =
      sanitize (render (fun e => e.1) cs) := by
  rw [sanitize_render cs H1 H2]
  apply sanitizeWith_noop
  intro p hp hinf
  have := List.all_eq_true.mp H3 p hp
  rw [(occursIn_correct p.1 (render (fun e => e.2) cs)).mpr hinf] at this
  simp at this

theorem claim_C4_witness :
    sanitize (sanitize (render (fun e => e.1)
      [Chunk.lit (("q").data),
       Chunk.frag (("this.log('�o. Test framework cleanup completed');").data,
         ("this.log('[OK] Test framework cleanup completed');").data),
       Chunk.lit (("\n").data)])) =
    sanitize (render (fun e => e.1)
      [Chunk.lit (("q").data),
       Chunk.frag (("this.log('�o. Test framework cleanup completed');").data,
         ("this.log('[OK] Test framework cleanup completed');").data),
       Chunk.lit (("\n").data)]) :=
  claim_C4 _ rfl rfl rfl

/-- C5: for an input containing the literal fragment
this.log('dY", Initializing test framework with universal browser
service...'); at a marked position (with no interfering matches
elsewhere), the sanitizer's output contains
this.log('[INFO] Initializing test framework with universal browser
service...'); in its place, and nothing else — in particular nothing
else on that line — is changed. -/
theorem claim_C5 (u w : Str)
    (H : safeChainB (fun e => e.1) replacements
      [Chunk.lit u,
       Chunk.frag (("this.log('dY\", Initializing test framework with universal browser service...');").data,
         ("this.log('[INFO] Initializing test framework with universal browser service...');").data),
       Chunk.lit w] = true) :
    sanitize (u ++ ("this.log('dY\", Initializing test framework with universal browser service...');").data ++ w) =
      u ++ ("this.log('[INFO] Initializing test framework with universal browser service...');").data ++ w := by
  have h := sanitize_render
    [Chunk.lit u,
     Chunk.frag (("this.log('dY\", Initializing test framework with universal browser service...');").data,
       ("this.log('[INFO] Initializing test framework with universal browser service...');").data),
     Chunk.lit w] (by rfl) H
  simp only [render, List.append_nil] at h
  simp only [List.append_assoc]
  exact h

theorem claim_C5_witness :
    sanitize ((("p(); ").data) ++ ("this.log('dY\", Initializing test framework with universal browser service...');").data ++ ((" q();").data)) =
      (("p(); ").data) ++ ("this.log('[INFO] Initializing test framework with universal browser service...');").data ++ ((" q();").data) :=
  claim_C5 _ _ rfl

/-- C6: replacement matching is exact and literal: on any input text in
which no mapping entry's `old` fragment occurs as an exact contiguous
fragment (near-misses in whitespace, encoding pattern or case included),
the sanitizer's output is byte-identical to the input — an absent
fragment is silently a no-op, never an error. -/
theorem claim_C6 (t : Str)
    (H : replacements.all (fun p => !(occursIn p.1 t)) = true) :
    sanitize t = t := by
  apply sanitizeWith_noop
  intro p hp hinf
  have := List.all_eq_true.mp H p hp
  rw [(occursIn_correct p.1 t).mpr hinf] at this
  simp at this

theorem claim_C6_witness :
    sanitize (("this.log('dY\", initializing test framework with universal browser service...');").data) =
      ("this.log('dY\", initializing test framework with universal browser service...');").data :=
  claim_C6 _ rfl

/-- C7: if reading the input file fails (file missing, permission
denied, or decoding failure), the run fails as a whole with the
underlying error, and the target file keeps its prior state: no write
occurs, and in particular a missing file is not created. -/
theorem claim_C7 (e : IOErr) (disk : Option Str) :
    runSanitizer (Except.error e) disk = (Except.error e, disk) := rfl

/-- C9: the sanitization pass is deterministic: two runs on the same
input text produce identical outputs, and the output is a function of
the input content and the fixed mapping alone. -/
theorem claim_C9 (t1 t2 : Str) (h : t1 = t2) :
    sanitize t1 = sanitize t2 ∧ sanitize t1 = sanitizeWith replacements t1 :=
  ⟨congrArg sanitize h, rfl⟩

theorem claim_C9_witness :
    sanitize (("abc").data) = sanitize (("abc").data) ∧
      sanitize (("abc").data) = sanitizeWith replacements (("abc").data) :=
  claim_C9 (("abc").data) (("abc").data) rfl

/-- C10: on the empty input text the sanitization pass is the identity:
sanitize "" = "" — no mapping entry matches the empty text and no
replacement inserts text into empty content. -/
theorem claim_C10 : sanitize [] = [] := by
  apply sanitizeWith_noop
  intro p hp hinf
  exact rep_olds_ne_nil p hp (List.infix_nil.mp hinf)

theorem char_toNat_valid (c : Char) :
    c.toNat < 0xD800 ∨ (0xDFFF < c.toNat ∧ c.toNat < 0x110000) := by
  have h := c.valid
  unfold UInt32.isValidChar at h
  unfold Nat.isValidChar at h
  exact h

theorem utf8DecodeOne_encodeChar (c : Char) (rest : List Nat) :
    utf8DecodeOne (utf8EncodeChar c ++ rest) = some (c.toNat, rest) := by
  have hv := char_toNat_valid c
  rcases Nat.lt_or_ge c.toNat 0x80 with h1 | h1
  · have he : utf8EncodeChar c = [c.toNat] := by
      unfold utf8EncodeChar
      rw [if_pos h1]
    rw [he, List.singleton_append]
    unfold utf8DecodeOne
    dsimp only []
    rw [if_pos h1]
  · rcases Nat.lt_or_ge c.toNat 0x800 with h2 | h2
    · have he : utf8EncodeChar c =
          [0xC0 + c.toNat / 64, 0x80 + c.toNat % 64] := by
        unfold utf8EncodeChar
        rw [if_neg (by omega), if_pos h2]
      rw [he]
      show utf8DecodeOne
        ((0xC0 + c.toNat / 64) :: (0x80 + c.toNat % 64) :: rest) = _
      unfold utf8DecodeOne
      dsimp only []
      rw [if_neg (by omega), if_neg (by omega), if_pos (by omega)]
      rw [if_pos ⟨by omega, by omega⟩]
      have harg : (0xC0 + c.toNat / 64 - 0xC0) * 64 +
          (0x80 + c.toNat % 64 - 0x80) = c.toNat := by omega
      rw [harg]
    · rcases Nat.lt_or_ge c.toNat 0x10000 with h3 | h3
      · have he : utf8EncodeChar c =
            [0xE0 + c.toNat / 4096, 0x80 + (c.toNat / 64) % 64,
             0x80 + c.toNat % 64] := by
          unfold utf8EncodeChar
          rw [if_neg (by omega), if_neg (by omega), if_pos h3]
        rw [he]
        show utf8DecodeOne ((0xE0 + c.toNat / 4096) ::
          (0x80 + (c.toNat / 64) % 64) :: (0x80 + c.toNat % 64) :: rest) = _
        unfold utf8DecodeOne
        dsimp only []
        have harg : (0xE0 + c.toNat / 4096 - 0xE0) * 4096 +
            (0x80 + (c.toNat / 64) % 64 - 0x80) * 64 +
            (0x80 + c.toNat % 64 - 0x80) = c.toNat := by omega
        rw [if_neg (by omega), if_neg (by omega), if_neg (by omega),
            if_pos (by omega)]
        rw [harg]
        have hsur : c.toNat < 0xD800 ∨ 0xDFFF < c.toNat := by
          rcases hv with h | h
          · exact Or.inl h
          · exact Or.inr h.1
        rw [if_pos ⟨⟨by omega, by omega⟩, ⟨by omega, by omega⟩, by omega, hsur⟩]
      · have h4 : c.toNat < 0x110000 := by
          rcases hv with h | h
          · omega
          · exact h.2
        have he : utf8EncodeChar c =
            [0xF0 + c.toNat / 262144, 0x80 + (c.toNat / 4096) % 64,
             0x80 + (c.toNat / 64) % 64, 0x80 + c.toNat % 64] := by
          unfold utf8EncodeChar
          rw [if_neg (by omega), if_neg (by omega), if_neg (by omega)]
        rw [he]
        show utf8DecodeOne ((0xF0 + c.toNat / 262144) ::
          (0x80 + (c.toNat / 4096) % 64) :: (0x80 + (c.toNat / 64) % 64) ::
          (0x80 + c.toNat % 64) :: rest) = _
        unfold utf8DecodeOne
        dsimp only []
        have harg : (0xF0 + c.toNat / 262144 - 0xF0) * 262144 +
            (0x80 + (c.toNat / 4096) % 64 - 0x80) * 4096 +
            (0x80 + (c.toNat / 64) % 64 - 0x80) * 64 +
            (0x80 + c.toNat % 64 - 0x80) = c.toNat := by omega
        rw [if_neg (by omega), if_neg (by omega), if_neg (by omega),
            if_neg (by omega), if_pos (by omega)]
        rw [harg]
        rw [if_pos ⟨⟨by omega, by omega⟩, ⟨by omega, by omega⟩,
              ⟨by omega, by omega⟩, by omega, h4⟩]

theorem utf8DecodeFuel_consume (fuel : Nat) (b0 : Nat) (bs : List Nat)
    (n : Nat) (rest : List Nat)
    (h : utf8DecodeOne (b0 :: bs) = some (n, rest)) :
    utf8DecodeFuel (fuel + 1) (b0 :: bs) =
      (utf8DecodeFuel fuel rest).map (fun r => Char.ofNat n :: r) := by
  simp only [utf8DecodeFuel]
  rw [h]

theorem utf8EncodeChar_length_pos (c : Char) :
    1 ≤ (utf8EncodeChar c).length := by
  unfold utf8EncodeChar
  split_ifs <;> simp

theorem utf8DecodeFuel_encode (s : Str) :
    ∀ fuel, (utf8Encode s).length ≤ fuel →
      utf8DecodeFuel fuel (utf8Encode s) = some s := by
  induction s with
  | nil =>
    intro fuel _
    show utf8DecodeFuel fuel [] = some []
    cases fuel <;> rfl
  | cons c s ih =>
    intro fuel hf
    have henc : utf8Encode (c :: s) = utf8EncodeChar c ++ utf8Encode s := by
      simp [utf8Encode]
    have hlen1 := utf8EncodeChar_length_pos c
    have hlen : (utf8Encode (c :: s)).length =
        (utf8EncodeChar c).length + (utf8Encode s).length := by
      rw [henc, List.length_append]
    cases fuel with
    | zero =>
      exfalso
      omega
    | succ f =>
      obtain ⟨b0, bs0, hsh⟩ :
          ∃ b0 bs0, utf8EncodeChar c ++ utf8Encode s = b0 :: bs0 := by
        cases hec : utf8EncodeChar c with
        | nil =>
          rw [hec] at hlen1
          simp at hlen1
        | cons x xs => exact ⟨x, xs ++ utf8Encode s, by simp [hec]⟩
      have hone := utf8DecodeOne_encodeChar c (utf8Encode s)
      rw [hsh] at hone
      rw [henc, hsh, utf8DecodeFuel_consume f b0 bs0 c.toNat (utf8Encode s) hone]
      have hfs : (utf8Encode s).length ≤ f := by omega
      rw [ih f hfs]
      show some (Char.ofNat c.toNat :: s) = some (c :: s)
      rw [Char.ofNat_toNat]

theorem utf8Encode_decode (s : Str) : utf8Decode (utf8Encode s) = some s :=
  utf8DecodeFuel_encode s (utf8Encode s).length (Nat.le_refl _)

/-- C8: the rewrite introduces no encoding corruption: UTF-8-decoding
the UTF-8 encoding of the sanitized text yields exactly the sanitized
text, decode (encode (sanitize t)) = sanitize t — proved for every
text of Unicode scalar values, in particular for texts made of the
mapping's literal fragments plus ASCII filler. -/
theorem claim_C8 (t : Str) :
    utf8Decode (utf8Encode (sanitize t)) = some (sanitize t) :=
  utf8Encode_decode (sanitize t)
